import Mathlib

/-!
Shallow embedding of `src/bdd100k2yolo.py` (BDD100K semantic-segmentation
polygon JSON → YOLO-style text labels).

Python values are modelled as follows: JSON records become structures,
float coordinates become rationals, the filesystem's "does this source
image exist" question becomes a boolean oracle on filenames, and the
converter's side effects (text files written, images copied, warnings
printed, statistics counted) are threaded through an explicit state.
Exceptions (`KeyError` from `label['category']`, `IndexError` from
`label['poly2d'][0]`) become an `Except` error type.
-/

/-- One polygon of a `poly2d` entry: its `vertices` list of (x, y) points. -/
structure Polygon where
  vertices : List (ℚ × ℚ)
deriving DecidableEq

/-- One entry of a record's `labels` array.  `category` and `poly2d` are
optional JSON keys (`'category' in label`, `'poly2d' in label`). -/
structure Label where
  category : Option String
  poly2d : Option (List Polygon)
deriving DecidableEq

/-- One element of the top-level JSON array: an image name and its labels. -/
structure AnnotationRecord where
  name : String
  labels : List Label
deriving DecidableEq

/-- Python's `<` on strings compares character code points lexicographically:
this is that comparison on the underlying character lists. -/
def lex_lt : List Char → List Char → Bool
  | [], [] => false
  | [], _ :: _ => true
  | _ :: _, [] => false
  | c :: cs, d :: ds =>
      if c.toNat < d.toNat then true
      else if d.toNat < c.toNat then false
      else lex_lt cs ds

/-- Python's `<=` on strings, on the underlying character lists. -/
def lex_le : List Char → List Char → Bool
  | [], _ => true
  | _ :: _, [] => false
  | c :: cs, d :: ds =>
      if c.toNat < d.toNat then true
      else if d.toNat < c.toNat then false
      else lex_le cs ds

/-- Python string `<` (code-point lexicographic). -/
def str_lt (a b : String) : Bool := lex_lt a.data b.data

/-- Python string `<=` (code-point lexicographic). -/
def str_le (a b : String) : Bool := lex_le a.data b.data

/-- The categories appearing in labels that carry a `category` key, in
traversal order (the population `update_category_mapping` scans). -/
def all_categories (json_data : List AnnotationRecord) : List String :=
  json_data.flatMap fun item => item.labels.filterMap fun label => label.category

/-- Embeds `update_category_mapping`: collect the set of categories of all
labels having a `category` key, sort it, and enumerate from 0 into a
name → id association list (Python dict in insertion order). -/
def update_category_mapping (json_data : List AnnotationRecord) : List (String × ℕ) :=
  let categories := (all_categories json_data).dedup
  (List.insertionSort (fun a b => str_le a b = true) categories).enum.map fun p => (p.2, p.1)

example : update_category_mapping
    [⟨"i.jpg", [⟨some "car", none⟩, ⟨some "bike", none⟩]⟩] = [("bike", 0), ("car", 1)] := by
  decide

/-- Rounding of `q` to an integer count of millionths, ties to even, as
Python's `%.6f`-style formatting rounds. -/
def rnd6 (q : ℚ) : ℤ :=
  let s := q * 1000000
  let f := ⌊s⌋
  if s - f < 1 / 2 then f
  else if 1 / 2 < s - f then f + 1
  else if f % 2 = 0 then f else f + 1

/-- The six decimal digits of `a % 10^6`, most significant first. -/
def frac6digits (a : ℕ) : List ℕ :=
  [a / 100000 % 10, a / 10000 % 10, a / 1000 % 10, a / 100 % 10, a / 10 % 10, a % 10]

/-- Embeds the f-string conversion `f"{x:.6f}"`: the rounded value with
exactly six digits after the decimal point. -/
def format6 (q : ℚ) : String :=
  let n := rnd6 q
  let a := n.natAbs
  let s := toString (a / 1000000) ++ "." ++
    String.mk ((frac6digits (a % 1000000)).map fun d => Char.ofNat (48 + d))
  if n < 0 then "-" ++ s else s

example : format6 (640 / 1280) = "0.500000" := by
  have h : rnd6 (640 / 1280 : ℚ) = 500000 := by unfold rnd6; norm_num
  simp only [format6, h]
  decide

/-- Embeds `poly_norm = [[x/1280, y/720] for x, y in poly]`. -/
def poly_norm (poly : List (ℚ × ℚ)) : List (List ℚ) :=
  poly.map fun v => [v.1 / 1280, v.2 / 720]

/-- Embeds `poly_flat = [coord for point in poly_norm for coord in point]`. -/
def poly_flat (poly : List (ℚ × ℚ)) : List ℚ :=
  (poly_norm poly).flatten

/-- Embeds `poly_str = ' '.join(map(lambda x: f"{x:.6f}", poly_flat))`. -/
def poly_str (poly : List (ℚ × ℚ)) : String :=
  String.intercalate " " ((poly_flat poly).map fun x => format6 x)

/-- Embeds the written line `f"{category_id} {poly_str}\n"`. -/
def yolo_line (category_id : ℕ) (poly : List (ℚ × ℚ)) : String :=
  toString category_id ++ " " ++ poly_str poly ++ "\n"

/-- The whitespace-separated tokens of a written line: the category id, then
one token per normalized coordinate. -/
def line_tokens (category_id : ℕ) (poly : List (ℚ × ℚ)) : List String :=
  toString category_id :: (poly_flat poly).map fun x => format6 x

/-- Python exceptions the converter's loop body can raise. -/
inductive PyError where
  | keyError
  | indexError
deriving DecidableEq

instance {ε α : Type} [DecidableEq ε] [DecidableEq α] : DecidableEq (Except ε α) := fun a b =>
  match a, b with
  | .ok x, .ok y =>
      if h : x = y then isTrue (by rw [h]) else isFalse fun hh => h (Except.ok.inj hh)
  | .error e, .error f =>
      if h : e = f then isTrue (by rw [h]) else isFalse fun hh => h (Except.error.inj hh)
  | .ok _, .error _ => isFalse Except.noConfusion
  | .error _, .ok _ => isFalse Except.noConfusion

/-- Embeds `os.path.splitext(p)[0]` (`ntpath` flavour: separators are both
the backslash and the slash): drop the extension after the last dot,
provided that dot sits after the last separator and some earlier character
of the basename is not a dot. -/
def splitext_stem (p : String) : String :=
  let cs := p.data
  let isSep := fun c : Char => c = '\\' ∨ c = '/'
  let sepIdx := ((cs.enum.filter fun x => decide (isSep x.2)).map Prod.fst).getLast?
  let dotIdx := ((cs.enum.filter fun x => decide (x.2 = '.')).map Prod.fst).getLast?
  match dotIdx with
  | none => p
  | some d =>
      let base := match sepIdx with
        | none => 0
        | some k => k + 1
      if base ≤ d ∧ ((cs.drop base).take (d - base)).any (fun c => decide (c ≠ '.')) then
        String.mk (cs.take d)
      else p

example : splitext_stem "a.jpg" = "a" := by decide
example : splitext_stem "noext" = "noext" := by decide

/-- The observable effects and results of one `bdd100k_to_yolov8` run:
the `processed_images` set, the `missing_images` list, the
`categories_in_json` counter, the categories warned about, and the output
tree (text files by stem, copied images by filename, copy operations). -/
structure ConvState where
  processed : Finset String
  missing : List String
  stats : String → ℕ
  warnings : List String
  textNames : Finset String
  textContents : String → List String
  copiedNames : Finset String
  copyOps : ℕ

/-- State at the start of a run: nothing processed, nothing written. -/
def initState : ConvState :=
  ⟨∅, [], fun _ => 0, [], ∅, fun _ => [], ∅, 0⟩

/-- Embeds the body of `for label in item['labels']` (source lines 46-63):
accumulates lines for the open text file and updates counter/warnings.
`label['category']` on a label without the key raises `KeyError`;
`label['poly2d'][0]` on an empty list raises `IndexError`. -/
def processLabel (category_mapping : List (String × ℕ)) (st : ConvState)
    (lines : List String) (label : Label) : Except PyError (ConvState × List String) :=
  match label.poly2d with
  | none => .ok (st, lines)
  | some polys =>
    match label.category with
    | none => .error .keyError
    | some category =>
      let st1 : ConvState :=
        { st with stats := fun c => if c = category then st.stats c + 1 else st.stats c }
      match List.lookup category category_mapping with
      | none => .ok ({ st1 with warnings := st1.warnings ++ [category] }, lines)
      | some category_id =>
        match polys with
        | [] => .error .indexError
        | firstPoly :: _ =>
          let poly := firstPoly.vertices
          if poly.length < 3 then .ok (st1, lines)
          else .ok (st1, lines ++ [yolo_line category_id poly])

/-- Runs `processLabel` over a label list in order, stopping at the first
raised exception. -/
def processLabels (category_mapping : List (String × ℕ)) (st : ConvState)
    (lines : List String) : List Label → Except PyError (ConvState × List String)
  | [] => .ok (st, lines)
  | label :: rest =>
    match processLabel category_mapping st lines label with
    | .error e => .error e
    | .ok (st1, lines1) => processLabels category_mapping st1 lines1 rest

/-- Embeds the body of `for item in data` (source lines 30-63): add the name
to `processed_images`, attempt the image copy (`shutil.copy2`; on
`FileNotFoundError` record the name in `missing_images` and `continue`),
then open `<stem>.txt` in truncating write mode and process the labels. -/
def processItem (category_mapping : List (String × ℕ)) (srcExists : String → Bool)
    (st : ConvState) (item : AnnotationRecord) : Except PyError ConvState :=
  let image_file := item.name
  let st1 : ConvState := { st with processed := insert image_file st.processed }
  if srcExists image_file then
    let st2 : ConvState :=
      { st1 with copiedNames := insert image_file st1.copiedNames, copyOps := st1.copyOps + 1 }
    let stem := splitext_stem image_file
    let st3 : ConvState :=
      { st2 with textNames := insert stem st2.textNames,
                 textContents := fun s => if s = stem then [] else st2.textContents s }
    match processLabels category_mapping st3 [] item.labels with
    | .error e => .error e
    | .ok (st4, lines) =>
      .ok { st4 with textContents := fun s => if s = stem then lines else st4.textContents s }
  else
    .ok { st1 with missing := st1.missing ++ [image_file] }

/-- Runs `processItem` over the records in input order, stopping at the
first raised exception. -/
def runItems (category_mapping : List (String × ℕ)) (srcExists : String → Bool)
    (st : ConvState) : List AnnotationRecord → Except PyError ConvState
  | [] => .ok st
  | item :: rest =>
    match processItem category_mapping srcExists st item with
    | .error e => .error e
    | .ok st1 => runItems category_mapping srcExists st1 rest

/-- Embeds `bdd100k_to_yolov8`: iterate the loop body over the records of the
input JSON, starting from the empty state.  The filesystem is abstracted by
`srcExists`, telling whether the source image with a given filename exists. -/
def bdd100k_to_yolov8 (data : List AnnotationRecord) (srcExists : String → Bool)
    (category_mapping : List (String × ℕ)) : Except PyError ConvState :=
  runItems category_mapping srcExists initState data

/-- The first returned value, `len(processed_images)`. -/
def runProcessedCount (data : List AnnotationRecord) (srcExists : String → Bool)
    (category_mapping : List (String × ℕ)) : Except PyError ℕ :=
  (bdd100k_to_yolov8 data srcExists category_mapping).map fun st => st.processed.card

/-- The second returned value, `len(missing_images)`. -/
def runMissingCount (data : List AnnotationRecord) (srcExists : String → Bool)
    (category_mapping : List (String × ℕ)) : Except PyError ℕ :=
  (bdd100k_to_yolov8 data srcExists category_mapping).map fun st => st.missing.length

/-- The `missing_images` list of a run. -/
def runMissingList (data : List AnnotationRecord) (srcExists : String → Bool)
    (category_mapping : List (String × ℕ)) : Except PyError (List String) :=
  (bdd100k_to_yolov8 data srcExists category_mapping).map fun st => st.missing

/-- The `categories_in_json` counter of a run, read at one category. -/
def runCategoryCount (data : List AnnotationRecord) (srcExists : String → Bool)
    (category_mapping : List (String × ℕ)) (c : String) : Except PyError ℕ :=
  (bdd100k_to_yolov8 data srcExists category_mapping).map fun st => st.stats c

/-- The categories warned about (in print order) during a run. -/
def runWarnings (data : List AnnotationRecord) (srcExists : String → Bool)
    (category_mapping : List (String × ℕ)) : Except PyError (List String) :=
  (bdd100k_to_yolov8 data srcExists category_mapping).map fun st => st.warnings

/-- The set of text-file stems a run created. -/
def runTextNames (data : List AnnotationRecord) (srcExists : String → Bool)
    (category_mapping : List (String × ℕ)) : Except PyError (Finset String) :=
  (bdd100k_to_yolov8 data srcExists category_mapping).map fun st => st.textNames

/-- The number of distinct text files a run created. -/
def runTextCount (data : List AnnotationRecord) (srcExists : String → Bool)
    (category_mapping : List (String × ℕ)) : Except PyError ℕ :=
  (bdd100k_to_yolov8 data srcExists category_mapping).map fun st => st.textNames.card

/-- The final content (list of lines) of the text file with a given stem. -/
def runTextFile (data : List AnnotationRecord) (srcExists : String → Bool)
    (category_mapping : List (String × ℕ)) (s : String) : Except PyError (List String) :=
  (bdd100k_to_yolov8 data srcExists category_mapping).map fun st => st.textContents s

/-- The number of copy operations a run performed. -/
def runCopyOps (data : List AnnotationRecord) (srcExists : String → Bool)
    (category_mapping : List (String × ℕ)) : Except PyError ℕ :=
  (bdd100k_to_yolov8 data srcExists category_mapping).map fun st => st.copyOps

/-- The number of distinct destination image files a run copied to. -/
def runCopiedCount (data : List AnnotationRecord) (srcExists : String → Bool)
    (category_mapping : List (String × ℕ)) : Except PyError ℕ :=
  (bdd100k_to_yolov8 data srcExists category_mapping).map fun st => st.copiedNames.card

/-- Embeds `os.path.join(a, b, c)` on the script's Windows host. -/
def path_join3 (a b c : String) : String :=
  a ++ "\\" ++ b ++ "\\" ++ c

/-- Python's `repr` of a list of (quote-free) strings, as the f-string
interpolation `{list(final_category_mapping.keys())}` prints it. -/
def py_str_list (l : List String) : String :=
  "[" ++ String.intercalate ", " (l.map fun s => "'" ++ s ++ "'") ++ "]"

/-- Embeds the `data_yaml_content` f-string (source lines 143-149). -/
def data_yaml_content (output_base_dir : String) (final_category_mapping : List (String × ℕ)) :
    String :=
  "\ntrain: " ++ path_join3 output_base_dir "images" "train" ++ "\n" ++
  "val: " ++ path_join3 output_base_dir "images" "val" ++ "\n\n" ++
  "nc: " ++ toString final_category_mapping.length ++ "\n" ++
  "names: " ++ py_str_list (final_category_mapping.map Prod.fst) ++ "\n"

/-- Embeds the driver's manifest step (source lines 132-149): of the two
splits' results only the train split's category mapping (`train_results[3]`)
is passed on to the `data.yaml` content. -/
def driver_manifest (train_mapping _val_mapping : List (String × ℕ))
    (output_base_dir : String) : String :=
  data_yaml_content output_base_dir train_mapping

/-- Transitivity of the code-point lexicographic `<=` on character lists. -/
theorem lex_le_trans : ∀ as bs cs : List Char,
    lex_le as bs = true → lex_le bs cs = true → lex_le as cs = true := by
  intro as
  induction as with
  | nil => intro bs cs _ _; simp [lex_le]
  | cons a as ih =>
    intro bs cs h1 h2
    cases bs with
    | nil => simp [lex_le] at h1
    | cons b bs =>
      cases cs with
      | nil => simp [lex_le] at h2
      | cons c cs =>
        simp only [lex_le] at h1 h2 ⊢
        split_ifs at h1 h2 ⊢ with g1 g2 g3 g4 g5 g6 <;>
          first
          | rfl
          | omega
          | (exact ih bs cs h1 h2)

/-- Totality of the code-point lexicographic `<=` on character lists. -/
theorem lex_le_total : ∀ as bs : List Char,
    lex_le as bs = true ∨ lex_le bs as = true := by
  intro as
  induction as with
  | nil => intro bs; left; simp [lex_le]
  | cons a as ih =>
    intro bs
    cases bs with
    | nil => right; simp [lex_le]
    | cons b bs =>
      simp only [lex_le]
      rcases Nat.lt_trichotomy a.toNat b.toNat with h | h | h
      · left; simp [h]
      · have hne : ¬ a.toNat < b.toNat := by omega
        have hne' : ¬ b.toNat < a.toNat := by omega
        rcases ih bs with h' | h' <;> simp [hne, hne', h']
      · right; simp [h]

/-- Strictness from `<=` and difference, for the code-point order. -/
theorem lex_lt_of_le_of_ne : ∀ as bs : List Char,
    lex_le as bs = true → as ≠ bs → lex_lt as bs = true := by
  intro as
  induction as with
  | nil =>
    intro bs _ hne
    cases bs with
    | nil => exact absurd rfl hne
    | cons b bs => simp [lex_lt]
  | cons a as ih =>
    intro bs h1 hne
    cases bs with
    | nil => simp [lex_le] at h1
    | cons b bs =>
      simp only [lex_le] at h1
      simp only [lex_lt]
      by_cases g1 : a.toNat < b.toNat
      · simp [g1]
      · by_cases g2 : b.toNat < a.toNat
        · simp [g1, g2] at h1
        · have hab : a = b := Char.ext (UInt32.ext (show a.toNat = b.toNat by omega))
          subst hab
          rw [if_neg g1, if_neg g2] at h1
          rw [if_neg g1, if_neg g2]
          exact ih bs h1 fun hh => hne (by rw [hh])

/-- Transitivity of Python's string `<=`. -/
theorem str_le_trans (a b c : String) (h1 : str_le a b = true) (h2 : str_le b c = true) :
    str_le a c = true :=
  lex_le_trans a.data b.data c.data h1 h2

/-- Totality of Python's string `<=`. -/
theorem str_le_total (a b : String) : str_le a b = true ∨ str_le b a = true :=
  lex_le_total a.data b.data

/-- Strictness of Python's string order from `<=` and difference. -/
theorem str_lt_of_le_of_ne (a b : String) (h : str_le a b = true) (hne : a ≠ b) :
    str_lt a b = true :=
  lex_lt_of_le_of_ne a.data b.data h fun hd => hne (by cases a; cases b; cases hd; rfl)

instance : IsTotal String (fun a b => str_le a b = true) := ⟨str_le_total⟩

instance : IsTrans String (fun a b => str_le a b = true) := ⟨str_le_trans⟩

/-- Enumerating a pairwise-related list pairs the relation with strictly
increasing indices. -/
theorem pairwise_enumFrom {α : Type} {R : α → α → Prop} :
    ∀ (l : List α) (n : ℕ), l.Pairwise R →
      (l.enumFrom n).Pairwise fun p q => R p.2 q.2 ∧ p.1 < q.1 := by
  intro l
  induction l with
  | nil => intro n _; simp
  | cons a l ih =>
    intro n h
    rw [List.pairwise_cons] at h
    refine List.pairwise_cons.mpr ⟨?_, ih (n + 1) h.2⟩
    refine List.forall_mem_enumFrom.mpr fun i hi => ⟨h.1 _ (l.getElem_mem hi), by omega⟩

/-- The names of `update_category_mapping`'s output, in insertion order, are
the sorted distinct categories. -/
theorem mapping_map_fst (d : List AnnotationRecord) :
    (update_category_mapping d).map Prod.fst =
      List.insertionSort (fun a b => str_le a b = true) (all_categories d).dedup := by
  unfold update_category_mapping
  rw [List.map_map]
  have h : (Prod.fst ∘ fun p : ℕ × String => (p.2, p.1)) = Prod.snd := rfl
  rw [h, List.enum_map_snd]

/-- The ids of `update_category_mapping`'s output are `0..n-1` in order. -/
theorem mapping_map_snd (d : List AnnotationRecord) :
    (update_category_mapping d).map Prod.snd =
      List.range (update_category_mapping d).length := by
  unfold update_category_mapping
  rw [List.map_map, List.length_map]
  have h : (Prod.snd ∘ fun p : ℕ × String => (p.2, p.1)) = Prod.fst := rfl
  rw [h, List.enum_map_fst, List.enum_length]

/-- A category is a key of the mapping exactly when some label carries it
(whether or not that label has a polygon). -/
theorem mapping_mem (d : List AnnotationRecord) (c : String) :
    c ∈ (update_category_mapping d).map Prod.fst ↔
      ∃ item ∈ d, ∃ label ∈ item.labels, label.category = some c := by
  rw [mapping_map_fst, (List.perm_insertionSort _ _).mem_iff, List.mem_dedup]
  simp [all_categories]

/-- The mapping's names are strictly increasing in Python's lexicographic
string order. -/
theorem mapping_names_sorted (d : List AnnotationRecord) :
    ((update_category_mapping d).map Prod.fst).Pairwise fun a b => str_lt a b = true := by
  rw [mapping_map_fst]
  have hs : ((all_categories d).dedup.insertionSort fun a b => str_le a b = true).Pairwise
      fun a b => str_le a b = true :=
    List.sorted_insertionSort _ _
  have hn : ((all_categories d).dedup.insertionSort fun a b => str_le a b = true).Nodup :=
    (List.perm_insertionSort _ _).nodup_iff.mpr ((all_categories d).nodup_dedup)
  exact (hs.and hn).imp fun h => str_lt_of_le_of_ne _ _ h.1 h.2

/-- Along the mapping, lexicographically smaller name means smaller id. -/
theorem mapping_pairwise (d : List AnnotationRecord) :
    (update_category_mapping d).Pairwise fun p q => str_lt p.1 q.1 = true ∧ p.2 < q.2 := by
  have hmap := mapping_names_sorted d
  rw [mapping_map_fst] at hmap
  have h := pairwise_enumFrom (R := fun a b => str_lt a b = true)
    ((all_categories d).dedup.insertionSort fun a b => str_le a b = true) 0 hmap
  unfold update_category_mapping
  rw [List.pairwise_map]
  exact h.imp fun hpq => ⟨hpq.1, hpq.2⟩

/-- The lines one label contributes to the open text file, a pure function of
the label and the mapping (`[]` when the label is skipped). -/
def label_line (category_mapping : List (String × ℕ)) (label : Label) :
    Except PyError (List String) :=
  match label.poly2d with
  | none => .ok []
  | some polys =>
    match label.category with
    | none => .error .keyError
    | some category =>
      match List.lookup category category_mapping with
      | none => .ok []
      | some category_id =>
        match polys with
        | [] => .error .indexError
        | firstPoly :: _ =>
          if firstPoly.vertices.length < 3 then .ok []
          else .ok [yolo_line category_id firstPoly.vertices]

/-- The effect of one label on the pair (instance counter, warned list). -/
def label_effect (category_mapping : List (String × ℕ)) (label : Label)
    (sw : (String → ℕ) × List String) : (String → ℕ) × List String :=
  match label.poly2d, label.category with
  | some _, some category =>
    let stats1 := fun c => if c = category then sw.1 c + 1 else sw.1 c
    if (List.lookup category category_mapping).isSome then (stats1, sw.2)
    else (stats1, sw.2 ++ [category])
  | _, _ => sw

/-- The lines a whole label list contributes, in order. -/
def record_lines (category_mapping : List (String × ℕ)) :
    List Label → Except PyError (List String)
  | [] => .ok []
  | label :: rest =>
    match label_line category_mapping label with
    | .error e => .error e
    | .ok L => (record_lines category_mapping rest).map fun Ls => L ++ Ls

/-- The effect of a whole label list on (instance counter, warned list). -/
def record_effect (category_mapping : List (String × ℕ)) (labels : List Label)
    (sw : (String → ℕ) × List String) : (String → ℕ) × List String :=
  labels.foldl (fun acc label => label_effect category_mapping label acc) sw

/-- One `processLabel` step decomposes into its pure line and its
counter/warning effect. -/
theorem processLabel_eq (m : List (String × ℕ)) (st : ConvState) (lines : List String)
    (label : Label) :
    processLabel m st lines label = (label_line m label).map fun L =>
      ({ st with stats := (label_effect m label (st.stats, st.warnings)).1,
                 warnings := (label_effect m label (st.stats, st.warnings)).2 },
        lines ++ L) := by
  obtain ⟨cat, poly⟩ := label
  cases poly with
  | none => simp [processLabel, label_line, label_effect, Except.map]
  | some polys =>
    cases cat with
    | none => simp [processLabel, label_line, label_effect, Except.map]
    | some c =>
      cases hl : List.lookup c m with
      | none => simp [processLabel, label_line, label_effect, Except.map, hl]
      | some cid =>
        cases polys with
        | nil => simp [processLabel, label_line, label_effect, Except.map, hl]
        | cons p ps =>
          by_cases hlen : p.vertices.length < 3 <;>
            simp [processLabel, label_line, label_effect, Except.map, hl, hlen]

/-- A `processLabels` traversal decomposes into the labels' pure lines and
their accumulated counter/warning effect. -/
theorem processLabels_eq (m : List (String × ℕ)) :
    ∀ (labels : List Label) (st : ConvState) (lines : List String),
      processLabels m st lines labels = (record_lines m labels).map fun L =>
        ({ st with stats := (record_effect m labels (st.stats, st.warnings)).1,
                   warnings := (record_effect m labels (st.stats, st.warnings)).2 },
          lines ++ L) := by
  intro labels
  induction labels with
  | nil => intro st lines; simp [processLabels, record_lines, record_effect, Except.map]
  | cons label rest ih =>
    intro st lines
    simp only [processLabels, processLabel_eq]
    cases hll : label_line m label with
    | error e => simp [hll, record_lines, Except.map]
    | ok L =>
      simp only [hll, Except.map, record_lines, record_effect, List.foldl_cons]
      rw [ih]
      cases hrl : record_lines m rest with
      | error e => simp [hrl, Except.map]
      | ok Ls => simp [hrl, Except.map, List.append_assoc, record_effect]

/-- A record whose image copy fails only adds its name to `processed_images`
and to `missing_images`. -/
theorem processItem_miss (m : List (String × ℕ)) (fs : String → Bool) (st : ConvState)
    (item : AnnotationRecord) (h : fs item.name = false) :
    processItem m fs st item =
      .ok { st with processed := insert item.name st.processed,
                    missing := st.missing ++ [item.name] } := by
  simp [processItem, h]

/-- The state after successfully converting one record with line list `L`. -/
def itemState (m : List (String × ℕ)) (st : ConvState) (item : AnnotationRecord)
    (L : List String) : ConvState :=
  { processed := insert item.name st.processed
    missing := st.missing
    stats := (record_effect m item.labels (st.stats, st.warnings)).1
    warnings := (record_effect m item.labels (st.stats, st.warnings)).2
    textNames := insert (splitext_stem item.name) st.textNames
    textContents := fun s => if s = splitext_stem item.name then L else st.textContents s
    copiedNames := insert item.name st.copiedNames
    copyOps := st.copyOps + 1 }

/-- A record whose image copy succeeds copies the image, creates the text
file at the name's stem, and fills it with the labels' lines. -/
theorem processItem_hit (m : List (String × ℕ)) (fs : String → Bool) (st : ConvState)
    (item : AnnotationRecord) (h : fs item.name = true) :
    processItem m fs st item =
      (record_lines m item.labels).map fun L => itemState m st item L := by
  simp only [processItem, h, if_true, processLabels_eq]
  cases hrl : record_lines m item.labels with
  | error e => simp [hrl, Except.map]
  | ok L =>
    simp only [hrl, Except.map, Except.ok.injEq]
    unfold itemState
    congr 1
    funext s
    by_cases hs : s = splitext_stem item.name <;> simp [hs]

/-- Field characterization of a completed run: what `processed_images`,
`missing_images`, the created text files, the copied images and the copy
count are after the loop finishes without an exception. -/
theorem runItems_fields (m : List (String × ℕ)) (fs : String → Bool) :
    ∀ (items : List AnnotationRecord) (st st' : ConvState),
      runItems m fs st items = .ok st' →
      st'.processed = st.processed ∪ (items.map fun r => r.name).toFinset ∧
      st'.missing = st.missing ++ ((items.filter fun r => !fs r.name).map fun r => r.name) ∧
      st'.textNames = st.textNames ∪
        ((items.filter fun r => fs r.name).map fun r => splitext_stem r.name).toFinset ∧
      st'.copiedNames = st.copiedNames ∪
        ((items.filter fun r => fs r.name).map fun r => r.name).toFinset ∧
      st'.copyOps = st.copyOps + (items.filter fun r => fs r.name).length := by
  intro items
  induction items with
  | nil =>
    intro st st' h
    simp only [runItems] at h
    cases h
    simp
  | cons item rest ih =>
    intro st st' h
    simp only [runItems] at h
    cases hfs : fs item.name with
    | false =>
      simp only [processItem_miss m fs st item hfs] at h
      obtain ⟨h1, h2, h3, h4, h5⟩ := ih _ _ h
      refine ⟨?_, ?_, ?_, ?_, ?_⟩ <;>
        simp [h1, h2, h3, h4, h5, List.filter_cons, hfs, Finset.insert_union,
          Finset.union_insert]
    | true =>
      simp only [processItem_hit m fs st item hfs] at h
      cases hrl : record_lines m item.labels with
      | error e => rw [hrl] at h; simp [Except.map] at h
      | ok L =>
        rw [hrl] at h
        simp only [Except.map] at h
        obtain ⟨h1, h2, h3, h4, h5⟩ := ih _ _ h
        refine ⟨?_, ?_, ?_, ?_, ?_⟩ <;>
          (simp [h1, h2, h3, h4, h5, itemState, List.filter_cons, hfs,
            Finset.insert_union, Finset.union_insert]
           try omega)

/-- In a completed run, every record whose image exists had all its lines
computed without an exception. -/
theorem runItems_ok_lines (m : List (String × ℕ)) (fs : String → Bool) :
    ∀ (items : List AnnotationRecord) (st st' : ConvState),
      runItems m fs st items = .ok st' →
      ∀ r ∈ items, fs r.name = true → ∃ L, record_lines m r.labels = .ok L := by
  intro items
  induction items with
  | nil => intro st st' _ r hr; exact absurd hr (List.not_mem_nil r)
  | cons item rest ih =>
    intro st st' h r hr hfsr
    simp only [runItems] at h
    rcases List.mem_cons.mp hr with hr1 | hr2
    · subst hr1
      rw [processItem_hit m fs st r hfsr] at h
      cases hrl : record_lines m r.labels with
      | error e => rw [hrl] at h; simp [Except.map] at h
      | ok L => exact ⟨L, rfl⟩
    · cases hfs : fs item.name with
      | false =>
        rw [processItem_miss m fs st item hfs] at h
        exact ih _ _ h r hr2 hfsr
      | true =>
        rw [processItem_hit m fs st item hfs] at h
        cases hrl : record_lines m item.labels with
        | error e => rw [hrl] at h; simp [Except.map] at h
        | ok L =>
          rw [hrl] at h
          simp only [Except.map] at h
          exact ih _ _ h r hr2 hfsr

/-- When a label list's lines all computed, each member label's line
computed. -/
theorem record_lines_ok (m : List (String × ℕ)) :
    ∀ (labels : List Label) (L : List String), record_lines m labels = .ok L →
      ∀ lab ∈ labels, ∃ Ll, label_line m lab = .ok Ll := by
  intro labels
  induction labels with
  | nil => intro L _ lab hl; exact absurd hl (List.not_mem_nil lab)
  | cons label rest ih =>
    intro L h lab hl
    simp only [record_lines] at h
    cases hll : label_line m label with
    | error e => rw [hll] at h; simp at h
    | ok L1 =>
      rw [hll] at h
      rcases List.mem_cons.mp hl with h1 | h2
      · exact h1 ▸ ⟨L1, hll⟩
      · cases hrl : record_lines m rest with
        | error e => rw [hrl] at h; simp [Except.map] at h
        | ok Ls => exact ih Ls hrl lab h2

/-- A label whose line computed and which has a `poly2d` key has a
`category` key. -/
theorem label_line_ok_category (m : List (String × ℕ)) (lab : Label) (Ll : List String)
    (h : label_line m lab = .ok Ll) (ps : List Polygon) (hp : lab.poly2d = some ps) :
    lab.category.isSome = true := by
  obtain ⟨cat, poly⟩ := lab
  simp only at hp
  subst hp
  cases cat with
  | none => simp [label_line] at h
  | some c => rfl

/-- A label whose line computed, with a polygon list and a mapped category,
has a non-empty polygon list. -/
theorem label_line_ok_nonempty (m : List (String × ℕ)) (lab : Label) (Ll : List String)
    (h : label_line m lab = .ok Ll) (ps : List Polygon) (c : String) (cid : ℕ)
    (hp : lab.poly2d = some ps) (hc : lab.category = some c)
    (hm : List.lookup c m = some cid) : ps ≠ [] := by
  obtain ⟨cat, poly⟩ := lab
  simp only at hp hc
  subst hp
  subst hc
  cases ps with
  | nil => simp [label_line, hm] at h
  | cons p pss => simp

/-- Unfolding of `String.intercalate`'s accumulator loop. -/
theorem intercalate_go (s : String) : ∀ (bs : List String) (x b : String),
    String.intercalate.go x s (b :: bs) = x ++ s ++ String.intercalate.go b s bs := by
  intro bs
  induction bs with
  | nil => intro x b; simp [String.intercalate.go]
  | cons c cs ih =>
    intro x b
    show String.intercalate.go (x ++ s ++ b) s (c :: cs) = _
    rw [ih (x ++ s ++ b) c, ih b c]
    simp [String.append_assoc]

/-- Peeling the first element off a non-trivial `String.intercalate`. -/
theorem intercalate_cons_ne (s x : String) (l : List String) (hl : l ≠ []) :
    String.intercalate s (x :: l) = x ++ s ++ String.intercalate s l := by
  cases l with
  | nil => exact absurd rfl hl
  | cons b bs => simp [String.intercalate, intercalate_go]

/-- Flattening the normalized vertex list yields two floats per vertex. -/
theorem poly_flat_length (poly : List (ℚ × ℚ)) :
    (poly_flat poly).length = 2 * poly.length := by
  induction poly with
  | nil => rfl
  | cons v rest ih =>
    simp only [poly_flat, poly_norm, List.map_cons, List.flatten_cons] at ih ⊢
    simp only [List.length_append, List.length_cons, List.length_nil, ih]
    omega

/-- Every normalized coordinate is in `[0, 1]` when the source vertex is in
the `1280 × 720` frame. -/
theorem poly_flat_range (poly : List (ℚ × ℚ))
    (hbox : ∀ v ∈ poly, 0 ≤ v.1 ∧ v.1 ≤ 1280 ∧ 0 ≤ v.2 ∧ v.2 ≤ 720) :
    ∀ q ∈ poly_flat poly, 0 ≤ q ∧ q ≤ 1 := by
  intro q hq
  simp only [poly_flat, poly_norm, List.mem_flatten, List.mem_map] at hq
  obtain ⟨l, ⟨v, hv, hl⟩, hql⟩ := hq
  subst hl
  simp only [List.mem_cons, List.not_mem_nil, or_false] at hql
  obtain ⟨hx0, hx1, hy0, hy1⟩ := hbox v hv
  rcases hql with h | h
  · subst h
    exact ⟨div_nonneg hx0 (by norm_num), (div_le_one (by norm_num)).mpr hx1⟩
  · subst h
    exact ⟨div_nonneg hy0 (by norm_num), (div_le_one (by norm_num)).mpr hy1⟩

/-- The count of characters after the last dot of a string. -/
def decimals (s : String) : ℕ :=
  (s.data.reverse.takeWhile fun c => c ≠ '.').length

/-- `takeWhile` stops exactly at the first failing element. -/
theorem takeWhile_all_append {p : Char → Bool} :
    ∀ (l1 : List Char), (∀ x ∈ l1, p x = true) → ∀ (c : Char), p c = false →
      ∀ (l2 : List Char), List.takeWhile p (l1 ++ c :: l2) = l1 := by
  intro l1
  induction l1 with
  | nil => intro _ c hc l2; simp [List.takeWhile, hc]
  | cons a l ih =>
    intro h c hc l2
    have ha : p a = true := h a (List.mem_cons_self a l)
    simp only [List.cons_append, List.takeWhile_cons, ha, if_true]
    rw [ih (fun x hx => h x (List.mem_cons_of_mem a hx)) c hc l2]

/-- Each of the six fraction digits renders as a decimal digit character,
never a dot. -/
theorem frac6digits_chars (a : ℕ) :
    ∀ ch ∈ (frac6digits a).map fun d => Char.ofNat (48 + d), (ch ≠ '.' : Bool) = true := by
  have hd : ∀ d : ℕ, d < 10 → ((Char.ofNat (48 + d) ≠ '.' : Bool) = true) := by decide
  intro ch hch
  simp only [List.mem_map] at hch
  obtain ⟨d, hdmem, hch⟩ := hch
  subst hch
  refine hd d ?_
  simp only [frac6digits, List.mem_cons, List.not_mem_nil, or_false] at hdmem
  rcases hdmem with h | h | h | h | h | h <;>
    (subst h; exact Nat.mod_lt _ (by norm_num))

/-- Every `f"{x:.6f}"` output has exactly six digits after the decimal
point. -/
theorem format6_decimals (q : ℚ) : decimals (format6 q) = 6 := by
  have hdot : (('.' ≠ '.' : Bool) = false) := by decide
  have hlen : ∀ a : ℕ, ((frac6digits a).map fun d => Char.ofNat (48 + d)).length = 6 := by
    intro a; simp [frac6digits]
  have hall : ∀ x ∈ ((frac6digits ((rnd6 q).natAbs % 1000000)).map fun d =>
      Char.ofNat (48 + d)).reverse, ((x ≠ '.' : Bool) = true) :=
    fun x hx => frac6digits_chars _ x (List.mem_reverse.mp hx)
  unfold format6 decimals
  by_cases hneg : rnd6 q < 0
  · simp only [hneg, if_true]
    rw [String.data_append, String.data_append, String.data_append]
    simp only [List.reverse_append, List.reverse_cons, List.reverse_nil, List.nil_append,
      List.append_assoc, List.cons_append, List.singleton_append]
    rw [takeWhile_all_append _ hall '.' hdot _]
    simp [hlen]
  · simp only [hneg, if_false]
    rw [String.data_append, String.data_append]
    simp only [List.reverse_append, List.reverse_cons, List.reverse_nil, List.nil_append,
      List.append_assoc, List.cons_append, List.singleton_append]
    rw [takeWhile_all_append _ hall '.' hdot _]
    simp [hlen]

/-- The normalized x of the example vertex formats to half. -/
theorem format6_half_x : format6 (640 / 1280) = "0.500000" := by
  have h : rnd6 (640 / 1280 : ℚ) = 500000 := by unfold rnd6; norm_num
  simp only [format6, h]
  decide

/-- The normalized y of the example vertex formats to half. -/
theorem format6_half_y : format6 (360 / 720) = "0.500000" := by
  have h : rnd6 (360 / 720 : ℚ) = 500000 := by unfold rnd6; norm_num
  simp only [format6, h]
  decide

/-- The example vertex `(640, 360)` contributes `0.500000 0.500000`. -/
theorem lex_lt_irrefl : ∀ as : List Char, lex_lt as as = false := by
  intro as
  induction as with
  | nil => rfl
  | cons a l ih => simp [lex_lt, ih]

/-- The mapping's key list has no duplicate names. -/
theorem mapping_names_nodup (d : List AnnotationRecord) :
    ((update_category_mapping d).map Prod.fst).Nodup := by
  refine (mapping_names_sorted d).imp ?_
  intro a b hab heq
  subst heq
  rw [show str_lt a a = lex_lt a.data a.data from rfl, lex_lt_irrefl] at hab
  exact Bool.false_ne_true hab

theorem poly_str_example : poly_str [((640 : ℚ), (360 : ℚ))] = "0.500000 0.500000" := by
  have h : poly_flat [((640 : ℚ), (360 : ℚ))] = [640 / 1280, 360 / 720] := by
    simp [poly_flat, poly_norm]
  simp only [poly_str, h, List.map_cons, List.map_nil, format6_half_x, format6_half_y]
  decide

/-- C3: for every input sequence, the CategoryMapping's keys are exactly the
categories appearing in labels with a `category` field (polygon or not), its
ids are the contiguous integers `0..n-1` in order, lexicographically smaller
name means smaller id, and the example input with categories
`{"car", "bike"}` maps to `[("bike", 0), ("car", 1)]`. -/
theorem c3_category_mapping :
    (∀ (d : List AnnotationRecord) (c : String),
      c ∈ (update_category_mapping d).map Prod.fst ↔
        ∃ item ∈ d, ∃ label ∈ item.labels, label.category = some c) ∧
    (∀ d : List AnnotationRecord,
      (update_category_mapping d).map Prod.snd =
        List.range (update_category_mapping d).length) ∧
    (∀ d : List AnnotationRecord,
      (update_category_mapping d).Pairwise fun p q => str_lt p.1 q.1 = true ∧ p.2 < q.2) ∧
    update_category_mapping [⟨"i.jpg", [⟨some "car", none⟩, ⟨some "bike", none⟩]⟩] =
      [("bike", 0), ("car", 1)] :=
  ⟨mapping_mem, mapping_map_snd, mapping_pairwise, by decide⟩

/-- C5: the `data.yaml` manifest is a function of the train split's mapping
alone (any validation mapping yields the same text), its `names:` entry
lists the mapping's keys in insertion order, which for an indexer-built
mapping is lexicographically sorted and duplicate-free with `nc:` its
length, and the example mapping `{"bike": 0, "car": 1, "person": 2}` yields
`nc: 3` and `names: ['bike', 'car', 'person']`. -/
theorem c5_data_yaml_manifest :
    (∀ (tm v1 v2 : List (String × ℕ)) (b : String),
      driver_manifest tm v1 b = driver_manifest tm v2 b) ∧
    (∀ d : List AnnotationRecord,
      ((update_category_mapping d).map Prod.fst).Pairwise fun a b => str_lt a b = true) ∧
    (∀ d : List AnnotationRecord, ((update_category_mapping d).map Prod.fst).Nodup) ∧
    driver_manifest [("bike", 0), ("car", 1), ("person", 2)] [("zebra", 5)] "out" =
      "\ntrain: out\\images\\train\nval: out\\images\\val\n\nnc: 3\nnames: ['bike', 'car', 'person']\n" :=
  ⟨fun _ _ _ _ => rfl, mapping_names_sorted, mapping_names_nodup, by decide⟩

/-- C1 counterexample: a polygon label whose category `"cow"` is absent from
the mapping is warned about and contributes no line, but — contrary to the
claim — its per-category instance counter is incremented (to 1, not 0),
because the counter update precedes the membership check. -/
theorem c1_counterexample :
    runCategoryCount [⟨"a.jpg", [⟨some "cow", some [⟨[(0, 0), (1, 1), (2, 2)]⟩]⟩]⟩]
        (fun _ => true) [] "cow" = .ok 1 ∧
    runCategoryCount [⟨"a.jpg", [⟨some "cow", some [⟨[(0, 0), (1, 1), (2, 2)]⟩]⟩]⟩]
        (fun _ => true) [] "cow" ≠ .ok 0 ∧
    runWarnings [⟨"a.jpg", [⟨some "cow", some [⟨[(0, 0), (1, 1), (2, 2)]⟩]⟩]⟩]
        (fun _ => true) [] = .ok ["cow"] ∧
    runTextFile [⟨"a.jpg", [⟨some "cow", some [⟨[(0, 0), (1, 1), (2, 2)]⟩]⟩]⟩]
        (fun _ => true) [] (splitext_stem "a.jpg") = .ok [] := by
  refine ⟨rfl, ?_, rfl, rfl⟩
  decide

/-- C1 (amended): a label with a `poly2d` field whose category is absent
from the CategoryMapping triggers the warning, contributes no line to the
text file, and the record's remaining labels are still processed; however
the per-category instance counter is incremented for it, because the
increment precedes the membership check. -/
theorem c1_unmapped_category (m : List (String × ℕ)) (st : ConvState)
    (lines : List String) (label : Label) (polys : List Polygon) (c : String)
    (rest : List Label) (hp : label.poly2d = some polys) (hc : label.category = some c)
    (hm : List.lookup c m = none) :
    processLabel m st lines label =
      .ok ({ st with stats := fun x => if x = c then st.stats x + 1 else st.stats x,
                     warnings := st.warnings ++ [c] }, lines) ∧
    processLabels m st lines (label :: rest) =
      processLabels m { st with stats := fun x => if x = c then st.stats x + 1 else st.stats x,
                                warnings := st.warnings ++ [c] } lines rest := by
  obtain ⟨cat, poly⟩ := label
  simp only at hp hc
  subst hp
  subst hc
  constructor
  · simp [processLabel, hm]
  · simp [processLabels, processLabel, hm]

/-- C1 witness: the amended statement at a concrete unmapped label. -/
theorem c1_witness :
    processLabel [] initState [] ⟨some "cow", some [⟨[(0, 0), (1, 1), (2, 2)]⟩]⟩ =
      .ok ({ initState with
              stats := fun x => if x = "cow" then initState.stats x + 1 else initState.stats x,
              warnings := initState.warnings ++ ["cow"] }, []) ∧
    processLabels [] initState [] (⟨some "cow", some [⟨[(0, 0), (1, 1), (2, 2)]⟩]⟩ :: [⟨none, none⟩]) =
      processLabels [] { initState with
              stats := fun x => if x = "cow" then initState.stats x + 1 else initState.stats x,
              warnings := initState.warnings ++ ["cow"] } [] [⟨none, none⟩] :=
  c1_unmapped_category [] initState [] ⟨some "cow", some [⟨[(0, 0), (1, 1), (2, 2)]⟩]⟩
    [⟨[(0, 0), (1, 1), (2, 2)]⟩] "cow" [⟨none, none⟩] rfl rfl rfl

/-- C2 counterexample: a single record with a missing image is still counted
by the processed-image counter (which reports 1, not 0): the name is added
to `processed_images` before the copy attempt. -/
theorem c2_counterexample :
    runProcessedCount [⟨"b.jpg", []⟩] (fun _ => false) [] = .ok 1 ∧
    runProcessedCount [⟨"b.jpg", []⟩] (fun _ => false) [] ≠ .ok 0 ∧
    runMissingList [⟨"b.jpg", []⟩] (fun _ => false) [] = .ok ["b.jpg"] ∧
    runTextCount [⟨"b.jpg", []⟩] (fun _ => false) [] = .ok 0 := by
  refine ⟨rfl, ?_, rfl, rfl⟩
  decide

/-- C2 (amended): a record whose source image does not exist is appended to
the missing-images list and everything else — text files, per-category
counters, copies — is untouched, except that the record's filename has
already been added to the processed-image set, so the returned
processed-image count does include it. -/
theorem c2_missing_image (m : List (String × ℕ)) (fs : String → Bool) (st : ConvState)
    (item : AnnotationRecord) (h : fs item.name = false) :
    processItem m fs st item =
      .ok { st with processed := insert item.name st.processed,
                    missing := st.missing ++ [item.name] } :=
  processItem_miss m fs st item h

/-- C2 witness: the amended statement at a concrete missing-image record. -/
theorem c2_witness :
    processItem [] (fun _ => false) initState ⟨"b.jpg", []⟩ =
      .ok { initState with processed := insert "b.jpg" initState.processed,
                           missing := initState.missing ++ ["b.jpg"] } :=
  c2_missing_image [] (fun _ => false) initState ⟨"b.jpg", []⟩ rfl

/-- C4: a label whose category is mapped and whose first polygon has `k ≥ 3`
vertices writes one line: the category id followed by the `2 k` normalized
coordinates (x over 1280, y over 720), each formatted with exactly six
digits after the decimal point, every value lying in `[0, 1]` whenever the
source vertex lies in the `1280 × 720` frame; the vertex `(640, 360)`
renders as `0.500000 0.500000`. -/
theorem c4_written_line (m : List (String × ℕ)) (st : ConvState) (lines : List String)
    (label : Label) (c : String) (cid : ℕ) (p : Polygon) (ps : List Polygon)
    (hp : label.poly2d = some (p :: ps)) (hc : label.category = some c)
    (hm : List.lookup c m = some cid) (hk : 3 ≤ p.vertices.length) :
    processLabel m st lines label =
      .ok ({ st with stats := fun x => if x = c then st.stats x + 1 else st.stats x },
        lines ++ [yolo_line cid p.vertices]) ∧
    yolo_line cid p.vertices =
      String.intercalate " " (line_tokens cid p.vertices) ++ "\n" ∧
    (line_tokens cid p.vertices).length = 1 + 2 * p.vertices.length ∧
    ((∀ v ∈ p.vertices, 0 ≤ v.1 ∧ v.1 ≤ 1280 ∧ 0 ≤ v.2 ∧ v.2 ≤ 720) →
      ∀ q ∈ poly_flat p.vertices, 0 ≤ q ∧ q ≤ 1) ∧
    (∀ q : ℚ, decimals (format6 q) = 6) ∧
    poly_str [((640 : ℚ), (360 : ℚ))] = "0.500000 0.500000" := by
  have hflat : (poly_flat p.vertices).length = 2 * p.vertices.length :=
    poly_flat_length p.vertices
  refine ⟨?_, ?_, ?_, poly_flat_range p.vertices, format6_decimals, poly_str_example⟩
  · obtain ⟨cat, poly⟩ := label
    simp only at hp hc
    subst hp
    subst hc
    simp [processLabel, hm, Nat.not_lt.mpr hk]
  · have hne : (poly_flat p.vertices).map (fun x => format6 x) ≠ [] := by
      intro hnil
      have := congrArg List.length hnil
      simp only [List.length_map, hflat, List.length_nil] at this
      omega
    rw [line_tokens, intercalate_cons_ne " " _ _ hne]
    rfl
  · simp only [line_tokens, List.length_cons, List.length_map, hflat]
    omega

/-- C4 witness: the written-line statement at a concrete in-range label. -/
theorem c4_witness :
    processLabel [("car", 0)] initState []
        ⟨some "car", some [⟨[(0, 0), (640, 360), (1280, 720)]⟩]⟩ =
      .ok ({ initState with
              stats := fun x => if x = "car" then initState.stats x + 1 else initState.stats x },
        [] ++ [yolo_line 0 [(0, 0), (640, 360), (1280, 720)]]) ∧
    yolo_line 0 [(0, 0), (640, 360), (1280, 720)] =
      String.intercalate " " (line_tokens 0 [(0, 0), (640, 360), (1280, 720)]) ++ "\n" ∧
    (line_tokens 0 [(0, 0), (640, 360), (1280, 720)]).length =
      1 + 2 * ([(0, 0), (640, 360), (1280, 720)] : List (ℚ × ℚ)).length ∧
    ((∀ v ∈ ([(0, 0), (640, 360), (1280, 720)] : List (ℚ × ℚ)),
        0 ≤ v.1 ∧ v.1 ≤ 1280 ∧ 0 ≤ v.2 ∧ v.2 ≤ 720) →
      ∀ q ∈ poly_flat [(0, 0), (640, 360), (1280, 720)], 0 ≤ q ∧ q ≤ 1) ∧
    (∀ q : ℚ, decimals (format6 q) = 6) ∧
    poly_str [((640 : ℚ), (360 : ℚ))] = "0.500000 0.500000" :=
  c4_written_line [("car", 0)] initState []
    ⟨some "car", some [⟨[(0, 0), (640, 360), (1280, 720)]⟩]⟩ "car" 0
    ⟨[(0, 0), (640, 360), (1280, 720)]⟩ [] rfl rfl rfl (by decide)

/-- C6 counterexample: a label whose first polygon has only two vertices is
skipped, but not always silently — when its category is absent from the
mapping the unmapped-category warning is printed while skipping it. -/
theorem c6_counterexample :
    runWarnings [⟨"a.jpg", [⟨some "x", some [⟨[(0, 0), (1, 1)]⟩]⟩]⟩]
        (fun _ => true) [] = .ok ["x"] ∧
    runWarnings [⟨"a.jpg", [⟨some "x", some [⟨[(0, 0), (1, 1)]⟩]⟩]⟩]
        (fun _ => true) [] ≠ .ok ([] : List String) ∧
    runTextFile [⟨"a.jpg", [⟨some "x", some [⟨[(0, 0), (1, 1)]⟩]⟩]⟩]
        (fun _ => true) [] (splitext_stem "a.jpg") = .ok [] := by
  refine ⟨rfl, ?_, rfl⟩
  decide

/-- C6 (amended): a record whose image copy succeeds always gets a text
file — holding exactly its labels' lines, hence empty (zero-byte) when no
label qualifies — and a label whose first polygon has fewer than 3 vertices
produces no line; the sub-3-vertex skip is silent when the label's category
is in the mapping (an unmapped category triggers the warning instead). -/
theorem c6_text_file_and_short_polygons :
    (∀ (m : List (String × ℕ)) (fs : String → Bool) (st : ConvState)
        (item : AnnotationRecord) (L : List String),
      fs item.name = true → record_lines m item.labels = .ok L →
        processItem m fs st item = .ok (itemState m st item L) ∧
        splitext_stem item.name ∈ (itemState m st item L).textNames ∧
        (itemState m st item L).textContents (splitext_stem item.name) = L) ∧
    (∀ (m : List (String × ℕ)) (labels : List Label),
      (∀ lab ∈ labels, label_line m lab = .ok []) → record_lines m labels = .ok []) ∧
    (∀ (m : List (String × ℕ)) (st : ConvState) (lines : List String) (label : Label)
        (p : Polygon) (ps : List Polygon) (c : String) (cid : ℕ),
      label.poly2d = some (p :: ps) → label.category = some c →
      List.lookup c m = some cid → p.vertices.length < 3 →
        processLabel m st lines label =
          .ok ({ st with stats := fun x => if x = c then st.stats x + 1 else st.stats x },
            lines)) := by
  refine ⟨?_, ?_, ?_⟩
  · intro m fs st item L hfs hL
    refine ⟨?_, ?_, ?_⟩
    · rw [processItem_hit m fs st item hfs, hL]
      rfl
    · exact Finset.mem_insert_self _ _
    · simp [itemState]
  · intro m labels
    induction labels with
    | nil => intro _; rfl
    | cons lab rest ih =>
      intro h
      have hlab : label_line m lab = .ok [] := h lab (List.mem_cons_self lab rest)
      have hrest : record_lines m rest = .ok [] :=
        ih fun x hx => h x (List.mem_cons_of_mem lab hx)
      simp [record_lines, hlab, hrest, Except.map]
  · intro m st lines label p ps c cid hp hc hm hlen
    obtain ⟨cat, poly⟩ := label
    simp only at hp hc
    subst hp
    subst hc
    simp [processLabel, hm, hlen]

/-- C6 witness: the amended statement at concrete inputs — an empty-label
record gets an empty text file, and a mapped two-vertex label is skipped
with no line. -/
theorem c6_witness :
    (processItem [] (fun _ => true) initState ⟨"a.jpg", []⟩ =
        .ok (itemState [] initState ⟨"a.jpg", []⟩ []) ∧
      splitext_stem "a.jpg" ∈ (itemState [] initState ⟨"a.jpg", []⟩ []).textNames ∧
      (itemState [] initState ⟨"a.jpg", []⟩ []).textContents (splitext_stem "a.jpg") = []) ∧
    record_lines [] [⟨none, none⟩] = .ok [] ∧
    processLabel [("x", 0)] initState [] ⟨some "x", some [⟨[(0, 0), (1, 1)]⟩]⟩ =
      .ok ({ initState with
              stats := fun x => if x = "x" then initState.stats x + 1 else initState.stats x },
        []) :=
  ⟨c6_text_file_and_short_polygons.1 [] (fun _ => true) initState ⟨"a.jpg", []⟩ [] rfl rfl,
   c6_text_file_and_short_polygons.2.1 [] [⟨none, none⟩] (by
     intro lab hl
     rw [List.mem_singleton.mp hl]
     rfl),
   c6_text_file_and_short_polygons.2.2 [("x", 0)] initState [] ⟨some "x", some [⟨[(0, 0), (1, 1)]⟩]⟩
     ⟨[(0, 0), (1, 1)]⟩ [] "x" 0 rfl rfl rfl (by decide)⟩

/-- C7 counterexample: on a single record whose image is missing, the run
reports 1 distinct processed filename and 1 missing image but writes 0 text
files, not N = 1 as the claim states. -/
theorem c7_counterexample :
    runProcessedCount [⟨"b.jpg", []⟩] (fun _ => false) [] = .ok 1 ∧
    runMissingCount [⟨"b.jpg", []⟩] (fun _ => false) [] = .ok 1 ∧
    runTextCount [⟨"b.jpg", []⟩] (fun _ => false) [] = .ok 0 ∧
    runTextCount [⟨"b.jpg", []⟩] (fun _ => false) [] ≠ .ok 1 := by
  refine ⟨rfl, rfl, rfl, ?_⟩
  decide

/-- C7 (amended): when the records' filename stems are pairwise distinct, a
completed run writes `N - missing` text files and performs `N - missing`
copies to `N - missing` distinct destinations, where `N` is the returned
count of distinct filenames and `missing` the missing-image count (one text
file and one copy per record whose image exists, none for missing ones). -/
theorem c7_file_and_copy_counts (data : List AnnotationRecord) (fs : String → Bool)
    (m : List (String × ℕ))
    (hnd : (data.map fun r => splitext_stem r.name).Nodup)
    (nfiles ncopies ncopied nproc nmiss : ℕ)
    (h1 : runTextCount data fs m = .ok nfiles)
    (h2 : runCopyOps data fs m = .ok ncopies)
    (h5 : runCopiedCount data fs m = .ok ncopied)
    (h3 : runProcessedCount data fs m = .ok nproc)
    (h4 : runMissingCount data fs m = .ok nmiss) :
    nfiles = nproc - nmiss ∧ ncopies = nproc - nmiss ∧ ncopied = nproc - nmiss := by
  cases hrun : bdd100k_to_yolov8 data fs m with
  | error e =>
    rw [runTextCount, hrun] at h1
    simp [Except.map] at h1
  | ok st =>
    rw [runTextCount, hrun] at h1
    rw [runCopyOps, hrun] at h2
    rw [runCopiedCount, hrun] at h5
    rw [runProcessedCount, hrun] at h3
    rw [runMissingCount, hrun] at h4
    simp only [Except.map, Except.ok.injEq] at h1 h2 h5 h3 h4
    subst h1 h2 h5 h3 h4
    obtain ⟨hproc, hmiss, htext, hcopied, hops⟩ :=
      runItems_fields m fs data initState st hrun
    have hnames : (data.map fun r => r.name).Nodup := by
      have hnd' : ((data.map fun r => r.name).map splitext_stem).Nodup := by
        rw [List.map_map]
        exact hnd
      exact hnd'.of_map
    have hfsub : ((data.filter fun r => fs r.name).map fun r => splitext_stem r.name).Sublist
        (data.map fun r => splitext_stem r.name) :=
      List.Sublist.map _ (List.filter_sublist data)
    have hnsub : ((data.filter fun r => fs r.name).map fun r => r.name).Sublist
        (data.map fun r => r.name) :=
      List.Sublist.map _ (List.filter_sublist data)
    have hsplit : data.length = (data.filter fun r => fs r.name).length +
        (data.filter fun r => !fs r.name).length := by
      have h := List.length_eq_length_filter_add (l := data) fun r => fs r.name
      simpa using h
    rw [hproc, hmiss, htext, hcopied, hops]
    simp only [initState, Finset.empty_union, List.nil_append]
    rw [List.toFinset_card_of_nodup hnames,
      List.toFinset_card_of_nodup (List.Nodup.sublist hfsub hnd),
      List.toFinset_card_of_nodup (List.Nodup.sublist hnsub hnames)]
    simp only [List.length_map]
    omega

/-- C7 witness: the amended statement on a concrete three-record input with
one missing image. -/
theorem c7_witness : (2 : ℕ) = 3 - 1 ∧ (2 : ℕ) = 3 - 1 ∧ (2 : ℕ) = 3 - 1 :=
  c7_file_and_copy_counts [⟨"a.jpg", []⟩, ⟨"b.png", []⟩, ⟨"c.jpg", []⟩]
    (fun s => s != "b.png") [] (by decide) 2 2 2 3 1 rfl rfl rfl rfl rfl

/-- C8: a record with an existing image and a label that has `poly2d` but no
`category` key makes the converter raise `KeyError` (from
`label['category']`); conversely any run that finishes without an exception
had a `category` on every `poly2d`-bearing label of every record whose image
exists. -/
theorem c8_poly2d_requires_category :
    bdd100k_to_yolov8 [⟨"a.jpg", [⟨none, some [⟨[(0, 0), (1, 1), (2, 2)]⟩]⟩]⟩]
        (fun _ => true) [] = .error .keyError ∧
    (∀ (data : List AnnotationRecord) (fs : String → Bool) (m : List (String × ℕ)),
      (bdd100k_to_yolov8 data fs m).isOk = true →
      ∀ r ∈ data, fs r.name = true → ∀ lab ∈ r.labels, lab.poly2d.isSome = true →
        lab.category.isSome = true) := by
  constructor
  · rfl
  · intro data fs m hok r hr hfsr lab hlab hpoly
    cases hrun : bdd100k_to_yolov8 data fs m with
    | error e => rw [hrun] at hok; simp [Except.isOk, Except.toBool] at hok
    | ok st =>
      obtain ⟨L, hL⟩ := runItems_ok_lines m fs data initState st hrun r hr hfsr
      obtain ⟨Ll, hLl⟩ := record_lines_ok m r.labels L hL lab hlab
      obtain ⟨ps, hps⟩ := Option.isSome_iff_exists.mp hpoly
      exact label_line_ok_category m lab Ll hLl ps hps

/-- C8 witness: the necessity direction at a concrete error-free run. -/
theorem c8_witness : (Label.mk (some "car") (some [⟨[(0, 0), (1, 1)]⟩])).category.isSome = true :=
  c8_poly2d_requires_category.2 [⟨"a.jpg", [⟨some "car", some [⟨[(0, 0), (1, 1)]⟩]⟩]⟩]
    (fun _ => true) [("car", 0)] rfl _ (List.mem_singleton.mpr rfl) rfl _
    (List.mem_singleton.mpr rfl) rfl

/-- C9: a record with an existing image and a label whose `poly2d` value is
the empty list makes the converter raise `IndexError` (from
`label['poly2d'][0]`) once its category is in the mapping; conversely a run
that finishes without an exception had a non-empty `poly2d` on every
mapped-category polygon label of every record whose image exists. -/
theorem c9_empty_poly2d_indexerror :
    bdd100k_to_yolov8 [⟨"a.jpg", [⟨some "car", some []⟩]⟩] (fun _ => true) [("car", 0)] =
      .error .indexError ∧
    (∀ (data : List AnnotationRecord) (fs : String → Bool) (m : List (String × ℕ)),
      (bdd100k_to_yolov8 data fs m).isOk = true →
      ∀ r ∈ data, fs r.name = true → ∀ lab ∈ r.labels, ∀ ps : List Polygon,
        lab.poly2d = some ps → ∀ c : String, lab.category = some c →
        ∀ cid : ℕ, List.lookup c m = some cid → ps ≠ []) := by
  constructor
  · rfl
  · intro data fs m hok r hr hfsr lab hlab ps hps c hc cid hcid
    cases hrun : bdd100k_to_yolov8 data fs m with
    | error e => rw [hrun] at hok; simp [Except.isOk, Except.toBool] at hok
    | ok st =>
      obtain ⟨L, hL⟩ := runItems_ok_lines m fs data initState st hrun r hr hfsr
      obtain ⟨Ll, hLl⟩ := record_lines_ok m r.labels L hL lab hlab
      exact label_line_ok_nonempty m lab Ll hLl ps c cid hps hc hcid

/-- C9 witness: the necessity direction at a concrete error-free run. -/
theorem c9_witness : ([⟨[((5 : ℚ), (5 : ℚ)), (6, 6)]⟩] : List Polygon) ≠ [] :=
  c9_empty_poly2d_indexerror.2 [⟨"b.jpg", [⟨some "dog", some [⟨[(5, 5), (6, 6)]⟩]⟩]⟩]
    (fun _ => true) [("dog", 3)] rfl _ (List.mem_singleton.mpr rfl) rfl _
    (List.mem_singleton.mpr rfl) _ rfl _ rfl _ rfl

/-- C10: two records sharing a filename (image present) are both processed —
two copy operations to one destination — the later record's lines are the
final content of the shared text file (opened in truncating write mode), and
the returned processed-image count counts the filename once. -/
theorem c10_duplicate_filenames (r1 r2 : AnnotationRecord) (m : List (String × ℕ))
    (fs : String → Bool) (L1 L2 : List String)
    (hname : r1.name = r2.name) (hfs : fs r1.name = true)
    (h1 : record_lines m r1.labels = .ok L1) (h2 : record_lines m r2.labels = .ok L2) :
    runTextFile [r1, r2] fs m (splitext_stem r2.name) = .ok L2 ∧
    runProcessedCount [r1, r2] fs m = .ok 1 ∧
    runCopiedCount [r1, r2] fs m = .ok 1 ∧
    runCopyOps [r1, r2] fs m = .ok 2 ∧
    runMissingCount [r1, r2] fs m = .ok 0 := by
  have hfs2 : fs r2.name = true := hname ▸ hfs
  have hrun : bdd100k_to_yolov8 [r1, r2] fs m =
      .ok (itemState m (itemState m initState r1 L1) r2 L2) := by
    simp [bdd100k_to_yolov8, runItems, processItem_hit m fs initState r1 hfs,
      processItem_hit m fs (itemState m initState r1 L1) r2 hfs2, h1, h2, Except.map]
  refine ⟨?_, ?_, ?_, ?_, ?_⟩ <;>
    simp only [runTextFile, runProcessedCount, runCopiedCount, runCopyOps,
      runMissingCount, hrun, Except.map, Except.ok.injEq]
  · simp [itemState]
  · simp [itemState, initState, hname]
  · simp [itemState, initState, hname]
  · simp [itemState, initState]
  · simp [itemState, initState]

/-- C10 witness: the statement at two concrete records named `a.jpg`, the
first contributing a polygon line and the second none — the final text file
is the second record's (empty) content. -/
theorem c10_witness :
    runTextFile [⟨"a.jpg", [⟨some "car", some [⟨[(0, 0), (1, 1), (2, 2)]⟩]⟩]⟩, ⟨"a.jpg", []⟩]
        (fun _ => true) [("car", 0)] (splitext_stem "a.jpg") = .ok [] ∧
    runProcessedCount [⟨"a.jpg", [⟨some "car", some [⟨[(0, 0), (1, 1), (2, 2)]⟩]⟩]⟩, ⟨"a.jpg", []⟩]
        (fun _ => true) [("car", 0)] = .ok 1 ∧
    runCopiedCount [⟨"a.jpg", [⟨some "car", some [⟨[(0, 0), (1, 1), (2, 2)]⟩]⟩]⟩, ⟨"a.jpg", []⟩]
        (fun _ => true) [("car", 0)] = .ok 1 ∧
    runCopyOps [⟨"a.jpg", [⟨some "car", some [⟨[(0, 0), (1, 1), (2, 2)]⟩]⟩]⟩, ⟨"a.jpg", []⟩]
        (fun _ => true) [("car", 0)] = .ok 2 ∧
    runMissingCount [⟨"a.jpg", [⟨some "car", some [⟨[(0, 0), (1, 1), (2, 2)]⟩]⟩]⟩, ⟨"a.jpg", []⟩]
        (fun _ => true) [("car", 0)] = .ok 0 :=
  c10_duplicate_filenames ⟨"a.jpg", [⟨some "car", some [⟨[(0, 0), (1, 1), (2, 2)]⟩]⟩]⟩
    ⟨"a.jpg", []⟩ [("car", 0)] (fun _ => true)
    [yolo_line 0 [(0, 0), (1, 1), (2, 2)]] [] rfl rfl rfl rfl
